import Mathlib

/-!
Verification of `vllm/entrypoints/chat_utils.py`.

Shallow embedding of the chat-utils module: the Jinja template structure
analyzer, the multimodal item tracker (sync and async variants), the
content-part parser, the flat-format placeholder back-fill, and the
tool-call post-processing pass.  Each definition is translated from the
Python source; external collaborators (the Jinja parser, media fetching,
the tokenizer, the host json decoder) are represented by parameters or by
their returned data.
-/

namespace VllmChat

/-! ## Jinja syntax-tree fragment

The analyzer consumes a parsed template only through `root.find_all(Assign)`,
`root.find_all(For)` and structural pattern checks on expressions
(`_is_var_access`, `_is_attr_access`, `_is_var_or_elems_access`).  A template
value is therefore embedded as the document-order lists of assignment
statements (target, right-hand side) and for-loops (target, iterated
expression) that `find_all` would return, plus an expression grammar covering
the node kinds the pattern checks inspect.  An assignment or loop target is
either a single `Name` node or a tuple target (jinja allows
`for a, b in seq`); the source asserts targets are `Name`s, and a failed
assertion propagates as an exception. -/

/-- A jinja assignment or for-loop target: a `Name` node or a tuple target. -/
inductive JTarget where
  | tname (nm : String)
  | ttuple
deriving DecidableEq

/-- The `arg` child of a jinja `Getitem` node, as far as the analyzer looks at
it: a string constant, a slice, or anything else. -/
inductive JArg where
  | aconstStr (s : String)
  | aslice
  | aother
deriving DecidableEq

/-- Jinja expression nodes the analyzer pattern-matches on.  `jfilterNone`
is a `Filter` node whose `node` field is `None`; `jother` stands for every
expression kind the pattern checks do not inspect (they reject it). -/
inductive JExpr where
  | jname (nm : String) (ctx : String)
  | jgetattr (obj : JExpr) (attr : String)
  | jgetitem (obj : JExpr) (arg : JArg)
  | jfilterSome (obj : JExpr)
  | jfilterNone
  | jtest (obj : JExpr)
  | jother
deriving DecidableEq

/-- A parsed template, viewed through the two `find_all` projections the
analyzer uses: assignments and for-loops in document order. -/
structure JTemplate where
  assigns : List (JTarget × JExpr)
  fors : List (JTarget × JExpr)
deriving DecidableEq

/-- `_is_var_access`: a `Name` node in `load` context with the given name. -/
def isVarAccess : JExpr → String → Bool
  | .jname nm ctx, varname => ctx == "load" && nm == varname
  | _, _ => false

/-- `_is_attr_access`: `Getitem` with a string-constant key, or `Getattr`,
whose object is a direct variable access. -/
def isAttrAccess : JExpr → String → String → Bool
  | .jgetitem obj (.aconstStr s), varname, key => isVarAccess obj varname && s == key
  | .jgetattr obj attr, varname, key => isVarAccess obj varname && attr == key
  | _, _, _ => false

/-- `_is_var_or_elems_access`: a variable access (or keyed attribute access
when `key` is given), transitively wrapped in filters, tests and slice
subscripts. -/
def isVarOrElemsAccess : JExpr → String → Option String → Bool
  | .jfilterSome obj, varname, key => isVarOrElemsAccess obj varname key
  | .jfilterNone, _, _ => false
  | .jtest obj, varname, key => isVarOrElemsAccess obj varname key
  | .jgetitem obj .aslice, varname, key => isVarOrElemsAccess obj varname key
  | node, varname, some key => isAttrAccess node varname key
  | node, varname, none => isVarAccess node varname

/-- Is a target a tuple (the case `assert isinstance(lhs, Name)` rejects)? -/
def targetIsTuple : JTarget → Bool
  | .tname _ => false
  | .ttuple => true

/-! ## The alias-propagation BFS of `_iter_nodes_assign_var_or_elems`

The python generator keeps a deque of related variable names; for each popped
name it rescans every assignment, yields the target name of each assignment
whose right-hand side accesses the popped name, and enqueues that target
unless it equals the popped name (the self-assignment guard).  A matched
assignment with a tuple target fails the `assert` (an exception the caller
absorbs).  The loop is modeled with explicit fuel, since (as proved below) it
does not terminate on every input. -/

/-- The BFS state: the deque of related variable names still to process, and
the names yielded so far (the seed is yielded separately, up front). -/
structure BfsSt where
  queue : List String
  acc : List String
deriving DecidableEq

/-- One rescan of all assignments for the popped name `v`: the targets of
assignments whose right-hand side accesses `v`; an error if a matched
assignment has a tuple target (the failed assertion). -/
def succsE (assigns : List (JTarget × JExpr)) (v : String) : Except Unit (List String) :=
  if assigns.any (fun p => isVarOrElemsAccess p.2 v none && targetIsTuple p.1) then
    .error ()
  else
    .ok (assigns.filterMap (fun p =>
      match p.1 with
      | .tname nm => if isVarOrElemsAccess p.2 v none then some nm else none
      | .ttuple => none))

/-- One iteration of the `while related_varnames:` loop: pop the head, yield
its matches, enqueue those different from it.  Identity on an empty queue. -/
def stepBfs (assigns : List (JTarget × JExpr)) (s : BfsSt) : Except Unit BfsSt :=
  match s.queue with
  | [] => .ok s
  | v :: rest =>
    (succsE assigns v).map (fun ns =>
      ⟨rest ++ ns.filter (fun w => !(w == v)), s.acc ++ ns⟩)

/-- Run the BFS loop for at most `fuel` iterations. -/
def runBfs (assigns : List (JTarget × JExpr)) : Nat → BfsSt → Except Unit BfsSt
  | 0, s => .ok s
  | n + 1, s => (stepBfs assigns s).bind (runBfs assigns n)

/-- The initial state: the deque seeded with the implicit root binding. -/
def initBfsSt (seed : String) : BfsSt := ⟨[seed], []⟩

/-- Did the BFS loop finish (empty the deque, or abort on the assertion)
within `fuel` iterations?  When `true`, `fuel` is enough to reproduce the
unbounded python loop. -/
def bfsDone (assigns : List (JTarget × JExpr)) (seed : String) (fuel : Nat) : Bool :=
  match runBfs assigns fuel (initBfsSt seed) with
  | .error _ => true
  | .ok s => s.queue.isEmpty

/-- All names `_iter_nodes_assign_var_or_elems(root, seed)` yields: the seed
first, then the BFS output. -/
def assignAliasNames (assigns : List (JTarget × JExpr)) (seed : String) (fuel : Nat) :
    Except Unit (List String) :=
  (runBfs assigns fuel (initBfsSt seed)).map (fun s => seed :: s.acc)

/-- `_iter_nodes_assign_messages_item`: the loop variables of for-loops whose
iterated expression accesses an alias of `messages`.  The enclosing list
comprehension is strict, so a matched loop with a tuple target anywhere in
the scan fails the assertion. -/
def messagesItemVars (t : JTemplate) (fuel : Nat) : Except Unit (List String) :=
  (assignAliasNames t.assigns "messages" fuel).bind (fun names =>
    if t.fors.any (fun f => names.any (fun v => isVarOrElemsAccess f.2 v none)
        && targetIsTuple f.1) then
      .error ()
    else
      .ok (t.fors.filterMap (fun f =>
        match f.1 with
        | .tname nm =>
          if names.any (fun v => isVarOrElemsAccess f.2 v none) then some nm else none
        | .ttuple => none)))

/-- `next(_iter_nodes_assign_content_item(root))`: lazily scan for the first
for-loop iterating a `"content"`-keyed access on a message variable.  `ok
true` when such a loop with a name target is found first, `error` when the
first such loop has a tuple target (failed assertion), `ok false` when none
exists (`StopIteration`). -/
def contentLoopFound (t : JTemplate) (fuel : Nat) : Except Unit Bool :=
  (messagesItemVars t fuel).bind (fun ms =>
    match t.fors.find? (fun f => ms.any (fun v => isVarOrElemsAccess f.2 v (some "content"))) with
    | none => .ok false
    | some f =>
      match f.1 with
      | .tname _ => .ok true
      | .ttuple => .error ())

/-- `_detect_content_format`: `default` when no tree was parsed, `"openai"`
when a stage-3 content loop is found, `"string"` when the scan completes
without one, `default` again when the traversal raises. -/
def detectContentFormat (fuel : Nat) (ast : Option JTemplate) (dflt : String) : String :=
  match ast with
  | none => dflt
  | some t =>
    match contentLoopFound t fuel with
    | .error _ => dflt
    | .ok true => "openai"
    | .ok false => "string"

/-! ## Declarative alias reachability (the specification side of C1) -/

/-- Declarative alias set: the least set containing the seed and closed under
assignments whose right-hand side accesses a member. -/
inductive AliasOf (assigns : List (JTarget × JExpr)) (seed : String) : String → Prop where
  | seed : AliasOf assigns seed seed
  | step {v w : String} {rhs : JExpr} :
      AliasOf assigns seed v →
      (JTarget.tname w, rhs) ∈ assigns →
      isVarOrElemsAccess rhs v none = true →
      AliasOf assigns seed w

/-- `m` is a per-message loop variable: the (name) target of a for-loop whose
iterated expression accesses an alias of the implicit `messages` binding. -/
def MessageVar (t : JTemplate) (m : String) : Prop :=
  ∃ it, (JTarget.tname m, it) ∈ t.fors ∧
    ∃ v, AliasOf t.assigns "messages" v ∧ isVarOrElemsAccess it v none = true

/-- The tree contains a stage-3 loop: a for-loop iterating a
`"content"`-keyed access on some message variable. -/
def HasContentLoop (t : JTemplate) : Prop :=
  ∃ tgt it, (tgt, it) ∈ t.fors ∧
    ∃ m, MessageVar t m ∧ isVarOrElemsAccess it m (some "content") = true

/-! ## BFS correctness lemmas -/

/-- `w` is a direct successor of `v`: some assignment with name target `w`
has a right-hand side accessing `v`. -/
def SuccName (assigns : List (JTarget × JExpr)) (v w : String) : Prop :=
  ∃ rhs, (JTarget.tname w, rhs) ∈ assigns ∧ isVarOrElemsAccess rhs v none = true

theorem mem_succsE {assigns : List (JTarget × JExpr)} {v : String} {ns : List String}
    (h : succsE assigns v = .ok ns) (w : String) :
    w ∈ ns ↔ SuccName assigns v w := by
  unfold succsE at h
  split at h
  · exact absurd h (by simp)
  · injection h with h
    subst h
    simp only [List.mem_filterMap, SuccName]
    constructor
    · rintro ⟨⟨tgt, rhs⟩, hmem, hf⟩
      cases tgt with
      | tname nm =>
        dsimp only at hf
        split at hf
        · injection hf with hf
          subst hf
          exact ⟨rhs, hmem, by assumption⟩
        · exact absurd hf (by simp)
      | ttuple => exact absurd hf (by simp)
    · rintro ⟨rhs, hmem, hacc⟩
      exact ⟨(JTarget.tname w, rhs), hmem, by simp [hacc]⟩

theorem stepBfs_nil {assigns : List (JTarget × JExpr)} {acc : List String} :
    stepBfs assigns ⟨[], acc⟩ = .ok ⟨[], acc⟩ := rfl

theorem stepBfs_cons {assigns : List (JTarget × JExpr)} {v : String} {rest acc ns : List String}
    (h : succsE assigns v = .ok ns) :
    stepBfs assigns ⟨v :: rest, acc⟩
      = .ok ⟨rest ++ ns.filter (fun w => !(w == v)), acc ++ ns⟩ := by
  unfold stepBfs
  dsimp only
  rw [h]
  rfl

theorem runBfs_zero {assigns : List (JTarget × JExpr)} {s : BfsSt} :
    runBfs assigns 0 s = .ok s := rfl

theorem runBfs_succ {assigns : List (JTarget × JExpr)} {n : Nat} {s : BfsSt} :
    runBfs assigns (n + 1) s = (stepBfs assigns s).bind (runBfs assigns n) := rfl

theorem stepBfs_ok_cases {assigns : List (JTarget × JExpr)} {s s' : BfsSt}
    (h : stepBfs assigns s = .ok s') :
    (s.queue = [] ∧ s' = s) ∨
    ∃ v rest ns, s.queue = v :: rest ∧ succsE assigns v = .ok ns ∧
      s' = ⟨rest ++ ns.filter (fun w => !(w == v)), s.acc ++ ns⟩ := by
  obtain ⟨q, acc⟩ := s
  cases q with
  | nil =>
    left
    refine ⟨rfl, ?_⟩
    have h' : (Except.ok ⟨[], acc⟩ : Except Unit BfsSt) = .ok s' := h
    injection h' with h'
    exact h'.symm
  | cons v rest =>
    right
    cases hs : succsE assigns v with
    | error e =>
      unfold stepBfs at h
      dsimp only at h
      rw [hs] at h
      exact absurd h (by simp [Except.map])
    | ok ns =>
      rw [stepBfs_cons hs] at h
      injection h with h
      exact ⟨v, rest, ns, rfl, hs, h.symm⟩

theorem stepBfs_acc_sub {assigns : List (JTarget × JExpr)} {s s' : BfsSt}
    (h : stepBfs assigns s = .ok s') : ∀ w ∈ s.acc, w ∈ s'.acc := by
  rcases stepBfs_ok_cases h with ⟨-, rfl⟩ | ⟨v, rest, ns, hq, hs, rfl⟩
  · exact fun w hw => hw
  · exact fun w hw => List.mem_append_left _ hw

theorem runBfs_acc_mono {assigns : List (JTarget × JExpr)} {n : Nat} {s s' : BfsSt}
    (h : runBfs assigns n s = .ok s') : ∀ w ∈ s.acc, w ∈ s'.acc := by
  induction n generalizing s with
  | zero =>
    rw [runBfs_zero] at h
    injection h with h
    subst h
    exact fun w hw => hw
  | succ n ih =>
    rw [runBfs_succ] at h
    cases hstep : stepBfs assigns s with
    | error e => rw [hstep] at h; exact absurd h (by simp [Except.bind])
    | ok s1 =>
      rw [hstep] at h
      have h1 : runBfs assigns n s1 = .ok s' := h
      exact fun w hw => ih h1 w (stepBfs_acc_sub hstep w hw)

/-- Soundness invariant: everything yielded or queued is a declarative alias. -/
def BfsSound (assigns : List (JTarget × JExpr)) (seed : String) (s : BfsSt) : Prop :=
  (∀ w ∈ s.acc, AliasOf assigns seed w) ∧ (∀ w ∈ s.queue, AliasOf assigns seed w)

theorem stepBfs_sound {assigns : List (JTarget × JExpr)} {seed : String} {s s' : BfsSt}
    (h : stepBfs assigns s = .ok s') (hs : BfsSound assigns seed s) :
    BfsSound assigns seed s' := by
  rcases stepBfs_ok_cases h with ⟨-, rfl⟩ | ⟨v, rest, ns, hq, hsucc, rfl⟩
  · exact hs
  · obtain ⟨hacc, hqueue⟩ := hs
    have hv : AliasOf assigns seed v := hqueue v (by rw [hq]; exact List.mem_cons_self _ _)
    have hns : ∀ w ∈ ns, AliasOf assigns seed w := by
      intro w hw
      obtain ⟨rhs, hmem, haccess⟩ := (mem_succsE hsucc w).mp hw
      exact AliasOf.step hv hmem haccess
    constructor
    · intro w hw
      rcases List.mem_append.mp hw with hw | hw
      · exact hacc w hw
      · exact hns w hw
    · intro w hw
      rcases List.mem_append.mp hw with hw | hw
      · exact hqueue w (by rw [hq]; exact List.mem_cons_of_mem _ hw)
      · exact hns w (List.mem_of_mem_filter hw)

theorem runBfs_sound {assigns : List (JTarget × JExpr)} {seed : String} {n : Nat} {s s' : BfsSt}
    (h : runBfs assigns n s = .ok s') (hs : BfsSound assigns seed s) :
    BfsSound assigns seed s' := by
  induction n generalizing s with
  | zero =>
    rw [runBfs_zero] at h
    injection h with h
    subst h
    exact hs
  | succ n ih =>
    rw [runBfs_succ] at h
    cases hstep : stepBfs assigns s with
    | error e => rw [hstep] at h; exact absurd h (by simp [Except.bind])
    | ok s1 =>
      rw [hstep] at h
      exact ih h (stepBfs_sound hstep hs)

/-- Completeness invariant: a yielded name is still queued, or all its
successors have already been yielded. -/
def AccClosed (assigns : List (JTarget × JExpr)) (s : BfsSt) : Prop :=
  ∀ w ∈ s.acc, w ∈ s.queue ∨ ∀ x, SuccName assigns w x → x ∈ s.acc

theorem stepBfs_accClosed {assigns : List (JTarget × JExpr)} {s s' : BfsSt}
    (h : stepBfs assigns s = .ok s') (hc : AccClosed assigns s) :
    AccClosed assigns s' := by
  rcases stepBfs_ok_cases h with ⟨-, rfl⟩ | ⟨v, rest, ns, hq, hsucc, rfl⟩
  · exact hc
  · intro w hw
    have hnsucc : ∀ x, SuccName assigns v x → x ∈ s.acc ++ ns := by
      intro x hx
      exact List.mem_append_right _ ((mem_succsE hsucc x).mpr hx)
    rcases List.mem_append.mp hw with hw | hw
    · rcases hc w hw with hwq | hwclosed
      · rw [hq] at hwq
        rcases List.mem_cons.mp hwq with rfl | hwrest
        · exact Or.inr hnsucc
        · exact Or.inl (List.mem_append_left _ hwrest)
      · exact Or.inr (fun x hx => List.mem_append_left _ (hwclosed x hx))
    · by_cases hwv : w = v
      · subst hwv
        exact Or.inr hnsucc
      · refine Or.inl (List.mem_append_right _ ?_)
        refine List.mem_filter.mpr ⟨hw, ?_⟩
        simp [hwv]

theorem runBfs_accClosed {assigns : List (JTarget × JExpr)} {n : Nat} {s s' : BfsSt}
    (h : runBfs assigns n s = .ok s') (hc : AccClosed assigns s) :
    AccClosed assigns s' := by
  induction n generalizing s with
  | zero =>
    rw [runBfs_zero] at h
    injection h with h
    subst h
    exact hc
  | succ n ih =>
    rw [runBfs_succ] at h
    cases hstep : stepBfs assigns s with
    | error e => rw [hstep] at h; exact absurd h (by simp [Except.bind])
    | ok s1 =>
      rw [hstep] at h
      exact ih h (stepBfs_accClosed hstep hc)

/-- If the run ends with an empty queue, every successor of every queued name
has been yielded. -/
theorem runBfs_queue_done {assigns : List (JTarget × JExpr)} {n : Nat} {s s' : BfsSt}
    (h : runBfs assigns n s = .ok s') (hq : s'.queue = []) :
    ∀ v ∈ s.queue, ∀ x, SuccName assigns v x → x ∈ s'.acc := by
  induction n generalizing s with
  | zero =>
    rw [runBfs_zero] at h
    injection h with h
    subst h
    intro v hv
    rw [hq] at hv
    exact absurd hv (List.not_mem_nil v)
  | succ n ih =>
    rw [runBfs_succ] at h
    cases hstep : stepBfs assigns s with
    | error e => rw [hstep] at h; exact absurd h (by simp [Except.bind])
    | ok s1 =>
      rw [hstep] at h
      have h1 : runBfs assigns n s1 = .ok s' := h
      rcases stepBfs_ok_cases hstep with ⟨hnil, rfl⟩ | ⟨v0, rest, ns, hq0, hsucc, rfl⟩
      · intro v hv
        rw [hnil] at hv
        exact absurd hv (List.not_mem_nil v)
      · intro v hv x hx
        rw [hq0] at hv
        rcases List.mem_cons.mp hv with rfl | hvrest
        · have hxns : x ∈ s.acc ++ ns :=
            List.mem_append_right _ ((mem_succsE hsucc x).mpr hx)
          exact runBfs_acc_mono h1 x hxns
        · exact ih h1 v (List.mem_append_left _ hvrest) x hx

/-- The list of names the stage-1 generator yields is exactly the declarative
alias set, provided the loop finished within the given fuel. -/
theorem assignAliasNames_iff {assigns : List (JTarget × JExpr)} {seed : String}
    {fuel : Nat} {l : List String}
    (hdone : bfsDone assigns seed fuel = true)
    (hok : assignAliasNames assigns seed fuel = .ok l) (w : String) :
    w ∈ l ↔ AliasOf assigns seed w := by
  unfold assignAliasNames at hok
  unfold bfsDone at hdone
  cases hrun : runBfs assigns fuel (initBfsSt seed) with
  | error e =>
    rw [hrun] at hok
    exact absurd hok (by simp [Except.map])
  | ok F =>
    rw [hrun] at hok hdone
    have hl : l = seed :: F.acc := by
      have : (Except.ok (seed :: F.acc) : Except Unit (List String)) = .ok l := hok
      injection this with h
      exact h.symm
    subst hl
    have hFq : F.queue = [] := List.isEmpty_iff.mp hdone
    have hsound0 : BfsSound assigns seed (initBfsSt seed) := by
      constructor
      · intro w hw
        exact absurd hw (List.not_mem_nil w)
      · intro w hw
        rcases List.mem_cons.mp hw with rfl | hw
        · exact AliasOf.seed
        · exact absurd hw (List.not_mem_nil w)
    have hsound := runBfs_sound hrun hsound0
    have hclosed0 : AccClosed assigns (initBfsSt seed) := by
      intro w hw
      exact absurd hw (List.not_mem_nil w)
    have hclosed := runBfs_accClosed hrun hclosed0
    have hseed : ∀ x, SuccName assigns seed x → x ∈ F.acc := by
      intro x hx
      exact runBfs_queue_done hrun hFq seed (List.mem_cons_self _ _) x hx
    constructor
    · intro hw
      rcases List.mem_cons.mp hw with rfl | hw
      · exact AliasOf.seed
      · exact hsound.1 w hw
    · intro halias
      induction halias with
      | seed => exact List.mem_cons_self _ _
      | step hv hmem haccess ih =>
        rename_i v w rhs
        rcases List.mem_cons.mp ih with rfl | hvF
        · exact List.mem_cons_of_mem _ (hseed w ⟨rhs, hmem, haccess⟩)
        · rcases hclosed v hvF with hvq | hvclosed
          · rw [hFq] at hvq
            exact absurd hvq (List.not_mem_nil v)
          · exact List.mem_cons_of_mem _ (hvclosed w ⟨rhs, hmem, haccess⟩)

/-- Stage 2: the yielded message-loop variables are exactly the declarative
`MessageVar`s, provided the stage succeeded. -/
theorem messagesItemVars_iff {t : JTemplate} {fuel : Nat} {ms : List String}
    (hdone : bfsDone t.assigns "messages" fuel = true)
    (hok : messagesItemVars t fuel = .ok ms) (m : String) :
    m ∈ ms ↔ MessageVar t m := by
  unfold messagesItemVars at hok
  cases hnames : assignAliasNames t.assigns "messages" fuel with
  | error e =>
    rw [hnames] at hok
    exact absurd hok (by simp [Except.bind])
  | ok names =>
    rw [hnames] at hok
    have hok' : (if t.fors.any (fun f =>
          names.any (fun v => isVarOrElemsAccess f.2 v none) && targetIsTuple f.1)
        then (.error () : Except Unit (List String))
        else .ok (t.fors.filterMap (fun f =>
          match f.1 with
          | .tname nm =>
            if names.any (fun v => isVarOrElemsAccess f.2 v none) then some nm else none
          | .ttuple => none))) = .ok ms := hok
    split at hok'
    · exact absurd hok' (by simp)
    · injection hok' with hok'
      subst hok'
      simp only [List.mem_filterMap, MessageVar]
      constructor
      · rintro ⟨⟨tgt, it⟩, hmem, hf⟩
        cases tgt with
        | tname nm =>
          dsimp only at hf
          split at hf
          · injection hf with hf
            subst hf
            rename_i hany
            obtain ⟨v, hv, hacc⟩ := List.any_eq_true.mp hany
            exact ⟨it, hmem, v, (assignAliasNames_iff hdone hnames v).mp hv, hacc⟩
          · exact absurd hf (by simp)
        | ttuple => exact absurd hf (by simp)
      · rintro ⟨it, hmem, v, halias, hacc⟩
        refine ⟨(JTarget.tname m, it), hmem, ?_⟩
        dsimp only
        rw [if_pos]
        exact List.any_eq_true.mpr ⟨v, (assignAliasNames_iff hdone hnames v).mpr halias, hacc⟩

/-- Stage 3: when the lazy scan succeeds, its boolean answer is the
declarative existence of a content loop. -/
theorem contentLoopFound_iff {t : JTemplate} {fuel : Nat} {b : Bool}
    (hdone : bfsDone t.assigns "messages" fuel = true)
    (hok : contentLoopFound t fuel = .ok b) :
    b = true ↔ HasContentLoop t := by
  unfold contentLoopFound at hok
  cases hms : messagesItemVars t fuel with
  | error e =>
    rw [hms] at hok
    exact absurd hok (by simp [Except.bind])
  | ok ms =>
    rw [hms] at hok
    simp only [Except.bind] at hok
    have hiff := messagesItemVars_iff hdone hms
    cases hfind : t.fors.find?
        (fun f => ms.any (fun v => isVarOrElemsAccess f.2 v (some "content"))) with
    | none =>
      rw [hfind] at hok
      have hb : b = false := by
        have : (Except.ok false : Except Unit Bool) = .ok b := hok
        injection this with h
        exact h.symm
      subst hb
      simp only [Bool.false_eq_true, false_iff]
      rintro ⟨tgt, it, hmem, m, hmv, hacc⟩
      have := List.find?_eq_none.mp hfind (tgt, it) hmem
      exact this (List.any_eq_true.mpr ⟨m, (hiff m).mpr hmv, hacc⟩)
    | some f =>
      rw [hfind] at hok
      dsimp only at hok
      cases hf1 : f.1 with
      | tname nm =>
        rw [hf1] at hok
        have hb : b = true := by
          have : (Except.ok true : Except Unit Bool) = .ok b := hok
          injection this with h
          exact h.symm
        subst hb
        simp only [true_iff]
        have hmem : f ∈ t.fors := List.mem_of_find?_eq_some hfind
        have hpred := List.find?_some hfind
        obtain ⟨m, hm, hacc⟩ := List.any_eq_true.mp hpred
        exact ⟨f.1, f.2, by simpa using hmem, m, (hiff m).mp hm, hacc⟩
      | ttuple =>
        rw [hf1] at hok
        exact absurd hok (by simp)

/-- C1 (amended): with no parsed tree the caller-supplied default is
returned; with a parsed tree whose traversal aborts on a failed target
assertion the default is returned as well; with a parsed tree whose
traversal completes, the classification is Structured exactly when the tree
contains a stage-3 loop iterating a `"content"` access on a message variable
reached through the alias chain from the implicit `messages` binding, and
Flat otherwise. -/
theorem detectContentFormat_spec :
    (∀ fuel dflt, detectContentFormat fuel none dflt = dflt) ∧
    (∀ fuel t dflt, bfsDone t.assigns "messages" fuel = true →
      (contentLoopFound t fuel = .error () → detectContentFormat fuel (some t) dflt = dflt) ∧
      (∀ b, contentLoopFound t fuel = .ok b →
        (b = true ↔ HasContentLoop t) ∧
        detectContentFormat fuel (some t) dflt = (if b then "openai" else "string"))) := by
  constructor
  · intro fuel dflt
    rfl
  · intro fuel t dflt hdone
    constructor
    · intro herr
      unfold detectContentFormat
      dsimp only
      rw [herr]
    · intro b hok
      refine ⟨contentLoopFound_iff hdone hok, ?_⟩
      unfold detectContentFormat
      dsimp only
      rw [hok]
      cases b <;> rfl

/-- The parsed tree of the template `{% for a, b in messages %}...{% endfor %}`:
one for-loop with a tuple target iterating the `messages` binding directly,
and no assignments. -/
def tupleLoopTemplate : JTemplate :=
  ⟨[], [(JTarget.ttuple, .jname "messages" "load")]⟩

/-- C1 counterexample: `tupleLoopTemplate` parses successfully and contains
no stage-3 content loop, yet `_detect_content_format` returns the
caller-supplied default `"openai"` instead of `"string"`: the tuple loop
target fails the `assert isinstance(loop_target, Name)` and the resulting
exception is absorbed into the default.  (The BFS itself finishes within one
iteration here, so the fuel is faithful.) -/
theorem detectContentFormat_cex :
    bfsDone tupleLoopTemplate.assigns "messages" 1 = true ∧
    ¬ HasContentLoop tupleLoopTemplate ∧
    detectContentFormat 1 (some tupleLoopTemplate) "openai" = "openai" ∧
    "openai" ≠ "string" := by
  refine ⟨by decide, ?_, rfl, by decide⟩
  rintro ⟨tgt, it, hmem, m, hmv, hacc⟩
  have hmem' : (tgt, it) = (JTarget.ttuple, JExpr.jname "messages" "load") := by
    simpa [tupleLoopTemplate] using hmem
  have hit : it = JExpr.jname "messages" "load" := (Prod.mk.injEq _ _ _ _ ▸ hmem').2
  rw [hit] at hacc
  simp [isVarOrElemsAccess, isAttrAccess] at hacc

/-! ## C8: the BFS does not terminate on every tree -/

/-- The assignments of the template
`{% set a = messages %}{% set b = a %}{% set a = b %}`. -/
def cyclicAssigns : List (JTarget × JExpr) :=
  [(JTarget.tname "a", .jname "messages" "load"),
   (JTarget.tname "b", .jname "a" "load"),
   (JTarget.tname "a", .jname "b" "load")]

theorem cyclic_step_m (acc : List String) :
    stepBfs cyclicAssigns ⟨["messages"], acc⟩ = .ok ⟨["a"], acc ++ ["a"]⟩ := rfl

theorem cyclic_step_a (acc : List String) :
    stepBfs cyclicAssigns ⟨["a"], acc⟩ = .ok ⟨["b"], acc ++ ["b"]⟩ := rfl

theorem cyclic_step_b (acc : List String) :
    stepBfs cyclicAssigns ⟨["b"], acc⟩ = .ok ⟨["a"], acc ++ ["a"]⟩ := rfl

theorem cyclic_run_inv : ∀ (n : Nat) (s : BfsSt),
    (s.queue = ["messages"] ∨ s.queue = ["a"] ∨ s.queue = ["b"]) →
    ∃ s', runBfs cyclicAssigns n s = .ok s' ∧
      (s'.queue = ["messages"] ∨ s'.queue = ["a"] ∨ s'.queue = ["b"]) := by
  intro n
  induction n with
  | zero => exact fun s hs => ⟨s, rfl, hs⟩
  | succ n ih =>
    intro s hs
    obtain ⟨q, acc⟩ := s
    rcases hs with h | h | h <;>
      (simp only at h; subst h) <;>
      rw [runBfs_succ]
    · rw [cyclic_step_m]
      exact ih ⟨["a"], acc ++ ["a"]⟩ (Or.inr (Or.inl rfl))
    · rw [cyclic_step_a]
      exact ih ⟨["b"], acc ++ ["b"]⟩ (Or.inr (Or.inr rfl))
    · rw [cyclic_step_b]
      exact ih ⟨["a"], acc ++ ["a"]⟩ (Or.inr (Or.inl rfl))

/-- C8: on the template `{% set a = messages %}{% set b = a %}{% set a = b %}`
the alias-propagation loop never exhausts its queue, whatever the number of
iterations: the guard only stops direct self-assignment, and the two-name
cycle `a = b`, `b = a` (reachable from `messages`) requeues `a` and `b`
forever. -/
theorem cyclicAliasBfsNeverDone :
    ∀ fuel : Nat, bfsDone cyclicAssigns "messages" fuel = false := by
  intro fuel
  obtain ⟨s', hrun, hq⟩ := cyclic_run_inv fuel (initBfsSt "messages") (Or.inl rfl)
  unfold bfsDone
  rw [hrun]
  rcases hq with h | h | h <;> simp [h]

/-! ## Python values and errors

Content parts and their payloads are JSON-like python values.  `PyErr` gives
one constructor per exception site of the embedded code (the python classes
and messages differ between sites, which matters for claim C6). -/

/-- A python value as the content-part code sees it. -/
inductive PVal where
  | pstr (s : String)
  | pint (n : Int)
  | pbool (b : Bool)
  | pnone
  | pdict (fields : List (String × PVal))

/-- The exceptions the embedded code can raise.  `attributeError` models
calling `.get` on a non-dict; `missingTypeField` and `invalidTypeField` are
the two `ValueError`s of `_parse_chat_message_content_mm_part`;
`unknownPartType` is the `NotImplementedError` of
`_parse_chat_message_content_part`; `limitExceeded` the `ValueError` of
`BaseMultiModalItemTracker.add`; `mixedModality`, `multipleImageEmbeds` and
`indexError` the failure sites of `all_mm_data`; `placeholderAccounting` the
`ValueError` of `_get_full_multimodal_text_prompt`; `unknownModelType` and
`unknownModality` the `TypeError`s of `_placeholder_str`; `typeError` other
host-level failures; `jsonDecodeError` a failed `json.loads`. -/
inductive PyErr where
  | attributeError
  | missingTypeField
  | invalidTypeField
  | unknownPartType (t : String)
  | limitExceeded (modality : String) (limit : Nat)
  | mixedModality
  | multipleImageEmbeds
  | indexError
  | placeholderAccounting (ph : String)
  | unknownModelType (modelType : String)
  | unknownModality (modality : String)
  | typeError
  | jsonDecodeError
deriving DecidableEq

/-- `dict.get(key)` on a python dict, `None` for a missing key (`find?`
matches python dicts, whose keys are unique). -/
def dictGet? (fields : List (String × PVal)) (key : String) : Option PVal :=
  (fields.find? (fun p => p.1 == key)).map (fun p => p.2)

/-- `dict.get(key, dflt)`. -/
def dictGetD (fields : List (String × PVal)) (key : String) (dflt : PVal) : PVal :=
  (dictGet? fields key).getD dflt

/-- `value.get(key, dflt)` on an arbitrary python value: an
`AttributeError` when the receiver is not a dict. -/
def pvalGetD (v : PVal) (key : String) (dflt : PVal) : Except PyErr PVal :=
  match v with
  | .pdict fs => .ok (dictGetD fs key dflt)
  | _ => .error .attributeError

/-- Python truthiness of the values that occur as extracted part content. -/
def pyTruthy : PVal → Bool
  | .pstr s => !(s == "")
  | .pint n => !(n == 0)
  | .pbool b => b
  | .pnone => false
  | .pdict fs => !fs.isEmpty

/-- The string a python f-string renders a value as.  Only the string case is
exercised by well-formed requests; the rendering of other values is
abstracted. -/
def pvalToStr : PVal → String
  | .pstr s => s
  | .pint n => toString n
  | .pbool b => if b then "True" else "False"
  | .pnone => "None"
  | .pdict _ => ""

/-! ## The multimodal item tracker (`BaseMultiModalItemTracker`) -/

/-- The request-independent configuration a tracker carries: the model type
from the hf config, the decoded llava image/video token strings (the
tokenizer `decode` is an external collaborator, so its two relevant results
are parameters), and `limit_per_prompt`. -/
structure TrackerCfg where
  modelType : String
  imageTokenStr : String
  videoTokenStr : String
  allowedItems : List (String × Nat)
deriving DecidableEq

/-- The tracker state: configuration plus `_items_by_modality`, a python
`defaultdict(list)` embedded as an association list in insertion order. -/
structure TrackerSt (α : Type) where
  cfg : TrackerCfg
  itemsByModality : List (String × List α)
deriving DecidableEq

/-- `self._allowed_items.get(modality, 1)`. -/
def allowedCount (cfg : TrackerCfg) (modality : String) : Nat :=
  ((cfg.allowedItems.find? (fun p => p.1 == modality)).map (fun p => p.2)).getD 1

/-- The item list recorded for a modality (empty when the key is absent). -/
def itemsOf (st : TrackerSt α) (modality : String) : List α :=
  ((st.itemsByModality.find? (fun p => p.1 == modality)).map (fun p => p.2)).getD []

/-- Is the modality a key of `_items_by_modality`? -/
def hasModality (st : TrackerSt α) (modality : String) : Bool :=
  (st.itemsByModality.find? (fun p => p.1 == modality)).isSome

/-- The `defaultdict.__getitem__` side effect: reading
`self._items_by_modality[modality]` inserts an empty list for a missing key. -/
def ensureModality (st : TrackerSt α) (modality : String) : TrackerSt α :=
  if hasModality st modality then st
  else { st with itemsByModality := st.itemsByModality ++ [(modality, [])] }

/-- Append an item to the modality's list (the key is present). -/
def appendItemTo (st : TrackerSt α) (modality : String) (item : α) : TrackerSt α :=
  { st with itemsByModality :=
      st.itemsByModality.map (fun p => if p.1 == modality then (p.1, p.2 ++ [item]) else p) }

/-- python `s.startswith(pre)`, computed on the character lists. -/
def strStartsWith (s pre : String) : Bool :=
  pre.data.isPrefixOf s.data

/-- The first hit of an ordered (condition, placeholder) table, or the
fallback error when no condition holds: one entry per `if` of the python
chain, in source order. -/
def firstMatch (table : List (Bool × Option String)) (fallback : PyErr) :
    Except PyErr (Option String) :=
  match table with
  | [] => .error fallback
  | (cond, r) :: rest => if cond then .ok r else firstMatch rest fallback

theorem firstMatch_error {table : List (Bool × Option String)} {fallback : PyErr} {e : PyErr}
    (h : firstMatch table fallback = .error e) : e = fallback := by
  induction table with
  | nil =>
    injection h with h
    exact h.symm
  | cons hd tl ih =>
    obtain ⟨cond, r⟩ := hd
    unfold firstMatch at h
    split at h
    · exact absurd h (by simp)
    · exact ih h

/-- `_placeholder_str`: the modality placeholder catalog, keyed on the model
type and the 1-based occurrence count; each table entry is one `if` of the
source chain, in source order.  An unknown (model type, modality) pair
raises `TypeError`. -/
def placeholderStr (cfg : TrackerCfg) (modality : String) (currentCount : Nat) :
    Except PyErr (Option String) :=
  if modality == "image" || modality == "image_embeds" then
    firstMatch [
      (cfg.modelType == "chatglm", some "<|begin_of_image|><|endoftext|><|end_of_image|>"),
      (cfg.modelType == "phi3_v", some ("<|image_" ++ toString currentCount ++ "|>")),
      (cfg.modelType == "phi4mm", some "<|endoftext10|>"),
      (cfg.modelType == "minicpmo" || cfg.modelType == "minicpmv", some "(<image>./</image>)"),
      (cfg.modelType == "blip-2" || cfg.modelType == "fuyu" || cfg.modelType == "paligemma"
        || cfg.modelType == "pixtral", none),
      (cfg.modelType == "qwen", some ("Picture " ++ toString currentCount ++ ": <img></img>")),
      (strStartsWith cfg.modelType "llava", some cfg.imageTokenStr),
      (cfg.modelType == "chameleon" || cfg.modelType == "deepseek_vl_v2"
        || cfg.modelType == "internvl_chat" || cfg.modelType == "NVLM_D"
        || cfg.modelType == "h2ovl_chat", some "<image>"),
      (cfg.modelType == "mllama", some "<|image|>"),
      (cfg.modelType == "qwen2_vl" || cfg.modelType == "qwen2_5_vl",
        some "<|vision_start|><|image_pad|><|vision_end|>"),
      (cfg.modelType == "molmo", some ""),
      (cfg.modelType == "idefics3", some "<image>"),
      (cfg.modelType == "aria", some "<|fim_prefix|><|img|><|fim_suffix|>"),
      (cfg.modelType == "gemma3", some "<start_of_image>")]
      (.unknownModelType cfg.modelType)
  else if modality == "audio" then
    firstMatch [
      (cfg.modelType == "ultravox", some "<|audio|>"),
      (cfg.modelType == "phi4mm", some "<|endoftext11|>"),
      (cfg.modelType == "qwen2_audio",
        some ("Audio " ++ toString currentCount ++ ": <|audio_bos|><|AUDIO|><|audio_eos|>")),
      (cfg.modelType == "minicpmo", some "(<audio>./</audio>)")]
      (.unknownModelType cfg.modelType)
  else if modality == "video" then
    firstMatch [
      (cfg.modelType == "qwen2_vl" || cfg.modelType == "qwen2_5_vl",
        some "<|vision_start|><|video_pad|><|vision_end|>"),
      (cfg.modelType == "minicpmo" || cfg.modelType == "minicpmv", some "(<video>./</video>)"),
      (strStartsWith cfg.modelType "llava", some cfg.videoTokenStr)]
      (.unknownModelType cfg.modelType)
  else .error (.unknownModality modality)

/-- `BaseMultiModalItemTracker.add`: read the current count (a defaultdict
read that may insert an empty entry), fail when it would exceed the limit,
otherwise append the item and resolve the placeholder.  The returned state
is the tracker after the call, also on the failure paths (python exceptions
do not roll back mutations; the catalog lookup runs after the append). -/
def trackerAdd (st : TrackerSt α) (modality : String) (item : α) :
    TrackerSt α × Except PyErr (Option String) :=
  let allowed := allowedCount st.cfg modality
  let st1 := ensureModality st modality
  let currentCount := (itemsOf st1 modality).length + 1
  if allowed < currentCount then
    (st1, .error (.limitExceeded modality allowed))
  else
    (appendItemTo st1 modality item, placeholderStr st.cfg modality currentCount)

/-- A value of the multimodal payload: image embeddings contribute a single
item, the other modalities a list. -/
inductive MMVal (α : Type) where
  | single (item : α)
  | many (items : List α)
deriving DecidableEq

/-- Insert-or-overwrite on the output mapping, keeping insertion order. -/
def upsertMm (m : List (String × MMVal α)) (k : String) (v : MMVal α) :
    List (String × MMVal α) :=
  if (m.find? (fun p => p.1 == k)).isSome then
    m.map (fun p => if p.1 == k then (k, v) else p)
  else m ++ [(k, v)]

/-- `MultiModalItemTracker.all_mm_data`: `None` when nothing was recorded;
raw images and embeddings are mutually exclusive; at most one embeddings
entry, which is stored under the `"image"` key as a single item
(`image_embeds_lst[0]` raises `IndexError` on an empty list). -/
def allMmData (st : TrackerSt α) : Except PyErr (Option (List (String × MMVal α))) :=
  if st.itemsByModality.isEmpty then .ok none
  else if hasModality st "image" && hasModality st "image_embeds" then
    .error .mixedModality
  else
    let afterEmbeds : Except PyErr (List (String × MMVal α)) :=
      if hasModality st "image_embeds" then
        let l := itemsOf st "image_embeds"
        if 1 < l.length then .error .multipleImageEmbeds
        else
          match l with
          | [] => .error .indexError
          | x :: _ => .ok (upsertMm [] "image" (.single x))
      else .ok []
    afterEmbeds.map (fun mm1 =>
      let mm2 := if hasModality st "image" then upsertMm mm1 "image" (.many (itemsOf st "image")) else mm1
      let mm3 := if hasModality st "audio" then upsertMm mm2 "audio" (.many (itemsOf st "audio")) else mm2
      let mm4 := if hasModality st "video" then upsertMm mm3 "video" (.many (itemsOf st "video")) else mm3
      some mm4)

/-- Await every pending item of the async tracker: `asyncio.gather` preserves
the order of each modality's list and the dict comprehension preserves key
order, so awaiting is resolving each item in place.  Fetch failures belong to
the external media collaborator and are not modeled. -/
def resolveTracker (resolve : α → β) (st : TrackerSt α) : TrackerSt β :=
  { cfg := st.cfg
    itemsByModality := st.itemsByModality.map (fun p => (p.1, p.2.map resolve)) }

/-- `AsyncMultiModalItemTracker.all_mm_data`: await everything, then run the
same checks and build the same mapping as the sync variant (the python bodies
are textually identical after the `await asyncio.gather`). -/
def allMmDataAsync (resolve : α → β) (st : TrackerSt α) :
    Except PyErr (Option (List (String × MMVal β))) :=
  allMmData (resolveTracker resolve st)

/-! ## Content-part parsing -/

/-- The keys of `MM_PARSER_MAP`. -/
def mmParserKeys : List String :=
  ["text", "image_url", "image_embeds", "audio_url", "input_audio", "refusal", "video_url"]

/-- `VALID_MESSAGE_CONTENT_MM_PART_TYPES` (same strings, source order). -/
def validMmPartTypes : List String :=
  ["text", "refusal", "image_url", "image_embeds", "audio_url", "input_audio", "video_url"]

/-- The parser `MM_PARSER_MAP[partType]` applied to the part dict: extracts
the content payload of a recognized part type.  The nested `.get` of the url
variants raises `AttributeError` when the field value is not a dict. -/
def mmParseContent (partType : String) (part : List (String × PVal)) : Except PyErr PVal :=
  if partType == "text" then .ok (dictGetD part "text" (.pstr ""))
  else if partType == "image_url" then
    pvalGetD (dictGetD part "image_url" (.pdict [])) "url" (.pstr "")
  else if partType == "image_embeds" then .ok (dictGetD part "image_embeds" (.pdict []))
  else if partType == "audio_url" then
    pvalGetD (dictGetD part "audio_url" (.pdict [])) "url" (.pstr "")
  else if partType == "input_audio" then .ok (dictGetD part "input_audio" (.pdict []))
  else if partType == "refusal" then .ok (dictGetD part "refusal" (.pstr ""))
  else if partType == "video_url" then
    pvalGetD (dictGetD part "video_url" (.pdict [])) "url" (.pstr "")
  else .error .typeError

/-- `part.get(key) is not None`: the field value when present and not `None`. -/
def getNonNone (part : List (String × PVal)) (key : String) : Option PVal :=
  match dictGet? part key with
  | some .pnone => none
  | o => o

/-- `_parse_chat_message_content_mm_part`: (part type, extracted content).
A recognized string tag dispatches through `MM_PARSER_MAP`; a missing (or
`None`) tag infers the type from the legacy bare fields or raises the
missing-type `ValueError`; a present non-string tag raises the invalid-type
`ValueError`; a present string tag outside the map falls through to the
final `return part_type, "unknown part_type content"`. -/
def parseMmPart (part : List (String × PVal)) : Except PyErr (String × PVal) :=
  match dictGet? part "type" with
  | some (.pstr t) =>
    if mmParserKeys.contains t then
      (mmParseContent t part).map (fun c => (t, c))
    else .ok (t, .pstr "unknown part_type content")
  | some .pnone | none =>
    match getNonNone part "image_url" with
    | some v => .ok ("image_url", v)
    | none =>
      match getNonNone part "audio_url" with
      | some v => .ok ("audio_url", v)
      | none =>
        match getNonNone part "input_audio" with
        | some _ => .ok ("input_audio", .pdict part)
        | none =>
          match getNonNone part "video_url" with
          | some v => .ok ("video_url", v)
          | none => .error .missingTypeField
  | some _ => .error .invalidTypeField

/-- One parsed content fragment: a raw string result (plain text parts and
unwrapped text), a wrapped text dict, or a wrapped media marker dict
(`{"type": "image" | "audio" | "video"}`). -/
inductive ParsedPart where
  | plain (v : PVal)
  | wrappedText (v : PVal)
  | wrappedMedia (kind : String)

/-- Python truthiness of a parse result (`if parse_res:`): wrapped dicts are
non-empty, a plain value is tested as a value. -/
def parsedPartTruthy : ParsedPart → Bool
  | .plain v => pyTruthy v
  | .wrappedText _ => true
  | .wrappedMedia _ => true

/-- The per-message parser state: the request-scoped tracker plus the
per-parser `_placeholder_counts` dict in insertion order.  Items are the
values the external `MediaConnector` fetch returns, represented by the
locator payload handed to it. -/
structure ParserSt where
  tracker : TrackerSt PVal
  placeholderCounts : List (String × Nat)

/-- `_add_placeholder`: count a truthy placeholder string. -/
def addPlaceholderCount (counts : List (String × Nat)) (ph : Option String) :
    List (String × Nat) :=
  match ph with
  | none => counts
  | some p =>
    if p == "" then counts
    else if (counts.find? (fun q => q.1 == p)).isSome then
      counts.map (fun q => if q.1 == p then (q.1, q.2 + 1) else q)
    else counts ++ [(p, 1)]

/-- Register one fetched media item: `tracker.add` followed by
`_add_placeholder`.  A tracker failure propagates (the request fails). -/
def parseMediaItem (ps : ParserSt) (modality : String) (item : PVal) :
    Except PyErr ParserSt :=
  let (tr, res) := trackerAdd ps.tracker modality item
  match res with
  | .error e => .error e
  | .ok ph => .ok ⟨tr, addPlaceholderCount ps.placeholderCounts ph⟩

/-- `parse_image`: the external fetch is represented by the url itself. -/
def parseImagePart (ps : ParserSt) (imageUrl : PVal) : Except PyErr ParserSt :=
  parseMediaItem ps "image" imageUrl

/-- `parse_image_embeds`: a dict payload has each value fetched, a string
payload is fetched directly; any other payload leaves `placeholder` unbound
(a host `UnboundLocalError`, embedded as `typeError`). -/
def parseImageEmbedsPart (ps : ParserSt) (imageEmbeds : PVal) : Except PyErr ParserSt :=
  match imageEmbeds with
  | .pdict _ | .pstr _ => parseMediaItem ps "image_embeds" imageEmbeds
  | _ => .error .typeError

/-- `parse_audio`. -/
def parseAudioPart (ps : ParserSt) (audioUrl : PVal) : Except PyErr ParserSt :=
  parseMediaItem ps "audio" audioUrl

/-- `parse_input_audio`: build the base64 data url and parse it as audio. -/
def parseInputAudioPart (ps : ParserSt) (inputAudio : PVal) : Except PyErr ParserSt := do
  let d ← pvalGetD inputAudio "data" (.pstr "")
  let f ← pvalGetD inputAudio "format" (.pstr "")
  parseAudioPart ps (.pstr ("data:audio/" ++ pvalToStr f ++ ";base64," ++ pvalToStr d))

/-- `parse_video`. -/
def parseVideoPart (ps : ParserSt) (videoUrl : PVal) : Except PyErr ParserSt :=
  parseMediaItem ps "video" videoUrl

/-- A content part as handed to `_parse_chat_message_content_part`: either a
plain string or a dict. -/
inductive InPart where
  | istr (s : String)
  | idict (fields : List (String × PVal))

/-- `_parse_chat_message_content_part`: plain strings pass through;
recognized parts with falsy content are dropped with a warning; text and
refusal parts return their string (wrapped when the target format is
Structured); media parts are registered with the tracker and return a marker
dict only when the target format is Structured; an unrecognized string tag
raises `NotImplementedError`. -/
def parsePart (part : InPart) (wrapDicts : Bool) (ps : ParserSt) :
    Except PyErr (Option ParsedPart × ParserSt) :=
  match part with
  | .istr s => .ok (some (.plain (.pstr s)), ps)
  | .idict fields =>
    (parseMmPart fields).bind (fun tc =>
      let partType := tc.1
      let content := tc.2
      if validMmPartTypes.contains partType && !pyTruthy content then
        .ok (none, ps)
      else if partType == "text" || partType == "refusal" then
        .ok (some (if wrapDicts then .wrappedText content else .plain content), ps)
      else if partType == "image_url" then
        (parseImagePart ps content).map (fun ps1 =>
          (if wrapDicts then some (.wrappedMedia "image") else none, ps1))
      else if partType == "image_embeds" then
        (parseImageEmbedsPart ps content).map (fun ps1 =>
          (if wrapDicts then some (.wrappedMedia "image") else none, ps1))
      else if partType == "audio_url" then
        (parseAudioPart ps content).map (fun ps1 =>
          (if wrapDicts then some (.wrappedMedia "audio") else none, ps1))
      else if partType == "input_audio" then
        (parseInputAudioPart ps content).map (fun ps1 =>
          (if wrapDicts then some (.wrappedMedia "audio") else none, ps1))
      else if partType == "video_url" then
        (parseVideoPart ps content).map (fun ps1 =>
          (if wrapDicts then some (.wrappedMedia "video") else none, ps1))
      else .error (.unknownPartType partType))

/-- The part loop of `_parse_chat_message_content_parts`: parse each part in
order, collecting truthy results (`if parse_res:`). -/
def parsePartsLoop (ps : ParserSt) (wrapDicts : Bool) :
    List InPart → Except PyErr (List ParsedPart × ParserSt)
  | [] => .ok ([], ps)
  | p :: rest =>
    (parsePart p wrapDicts ps).bind (fun rps =>
      (parsePartsLoop rps.2 wrapDicts rest).map (fun rs =>
        match rps.1 with
        | some pp => if parsedPartTruthy pp then (pp :: rs.1, rs.2) else rs
        | none => rs))

/-! ## Flat-format placeholder back-fill (`_get_full_multimodal_text_prompt`) -/

/-- Non-overlapping occurrence counting, scanning left to right
(python `str.count` for a non-empty pattern); `skip` positions are still
covered by the previous match. -/
def countSubAux (pat : List Char) : List Char → Nat → Nat
  | [], _ => 0
  | c :: t, skip =>
    if skip ≠ 0 then countSubAux pat t (skip - 1)
    else if pat.isPrefixOf (c :: t) then 1 + countSubAux pat t (pat.length - 1)
    else countSubAux pat t 0

/-- `text.count(pat)` of python: non-overlapping occurrences; the empty
pattern counts `len + 1`. -/
def countOcc (text pat : String) : Nat :=
  if pat.data.isEmpty then text.data.length + 1 else countSubAux pat.data text.data 0

/-- The back-fill scan: for each placeholder, in dict (first-encountered)
order, subtract the literal occurrences in the text; a negative remainder
fails, a positive one schedules that many missing copies. -/
def buildMissing (text : String) : List (String × Nat) → Except PyErr (List String)
  | [] => .ok []
  | (ph, c) :: rest =>
    if c < countOcc text ph then .error (.placeholderAccounting ph)
    else
      (buildMissing text rest).map (fun m => List.replicate (c - countOcc text ph) ph ++ m)

/-- `_get_full_multimodal_text_prompt`: the missing placeholder copies,
one per line, as a block preceding the text body. -/
def getFullMultimodalTextPrompt (placeholderCounts : List (String × Nat))
    (textPrompt : String) : Except PyErr String :=
  (buildMissing textPrompt placeholderCounts).map (fun missing =>
    String.intercalate "\n" (missing ++ [textPrompt]))

/-! ## Message assembly and tool-call post-processing -/

/-- The content of a canonical message: a single flat string or the ordered
structured part list. -/
inductive ConvContent where
  | cstr (s : String)
  | cparts (parts : List ParsedPart)

/-- The `function` object of a tool call: its name and its arguments
payload (a json text on the wire, a structured value after decoding). -/
structure ToolCallFunction where
  fname : String
  farguments : PVal

/-- One tool call of an assistant message. -/
structure ToolCall where
  tid : String
  tfunction : ToolCallFunction

/-- A canonical `ConversationMessage`. -/
structure ConvMessage where
  role : String
  content : ConvContent
  mname : Option String := none
  toolCallId : Option String := none
  toolCalls : Option (List ToolCall) := none

/-- A plain (unwrapped) parse result is read back as the string it must be
for `"\n".join`; a non-string raises a host `TypeError`. -/
def parsedPartAsStr : ParsedPart → Except PyErr String
  | .plain (.pstr s) => .ok s
  | _ => .error .typeError

def parsedPartsAsStrs : List ParsedPart → Except PyErr (List String)
  | [] => .ok []
  | p :: rest =>
    (parsedPartAsStr p).bind (fun s => (parsedPartsAsStrs rest).map (fun l => s :: l))

/-- `_parse_chat_message_content_parts`: run the part loop with a fresh
parser (fresh placeholder counts, shared tracker), then build the single
canonical message: the structured part list under the Structured target, or
the joined text body back-filled with missing placeholders under the Flat
target. -/
def parseChatMessageContentParts (role : String) (parts : List InPart)
    (tracker : TrackerSt PVal) (wrapDicts : Bool) :
    Except PyErr (ConvMessage × TrackerSt PVal) :=
  (parsePartsLoop ⟨tracker, []⟩ wrapDicts parts).bind (fun rs =>
    let content := rs.1
    let ps := rs.2
    if wrapDicts then
      .ok ({ role := role, content := .cparts content }, ps.tracker)
    else
      (parsedPartsAsStrs content).bind (fun texts =>
        let textPrompt := String.intercalate "\n" texts
        let counts := ps.placeholderCounts
        if counts.isEmpty then
          .ok ({ role := role, content := .cstr textPrompt }, ps.tracker)
        else
          (getFullMultimodalTextPrompt counts textPrompt).map (fun fullText =>
            ({ role := role, content := .cstr fullText }, ps.tracker))))

/-- Decode one tool call's arguments in place
(`item["function"]["arguments"] = json.loads(...)`); `decode` is the host
`json.loads`, an external collaborator passed as a parameter. -/
def postprocessToolCall (decode : PVal → Except PyErr PVal) (tc : ToolCall) :
    Except PyErr ToolCall :=
  (decode tc.tfunction.farguments).map (fun v =>
    { tc with tfunction := { tc.tfunction with farguments := v } })

def postprocessToolCalls (decode : PVal → Except PyErr PVal) :
    List ToolCall → Except PyErr (List ToolCall)
  | [] => .ok []
  | tc :: rest =>
    (postprocessToolCall decode tc).bind (fun tc2 =>
      (postprocessToolCalls decode rest).map (fun l => tc2 :: l))

/-- `_postprocess_messages` on one message: assistant messages carrying a
tool-call list have every call's arguments decoded in place. -/
def postprocessMessage (decode : PVal → Except PyErr PVal) (m : ConvMessage) :
    Except PyErr ConvMessage :=
  if m.role == "assistant" then
    match m.toolCalls with
    | some tcs =>
      (postprocessToolCalls decode tcs).map (fun tcs2 => { m with toolCalls := some tcs2 })
    | none => .ok m
  else .ok m

def postprocessMessages (decode : PVal → Except PyErr PVal) :
    List ConvMessage → Except PyErr (List ConvMessage)
  | [] => .ok []
  | m :: rest =>
    (postprocessMessage decode m).bind (fun m2 =>
      (postprocessMessages decode rest).map (fun l => m2 :: l))

/-! ## Tracker lemmas and claims C2, C10 -/

theorem find?_map_of_pred {γ δ : Type} (g : γ → δ) (pred : γ → Bool) (pred' : δ → Bool)
    (hg : ∀ b, pred' (g b) = pred b) (l : List γ) :
    (l.map g).find? pred' = (l.find? pred).map g := by
  induction l with
  | nil => rfl
  | cons hd tl ih =>
    rw [List.map_cons]
    cases h : pred hd with
    | true =>
      rw [List.find?_cons_of_pos _ (by rw [hg]; exact h), List.find?_cons_of_pos _ h]
      rfl
    | false =>
      rw [List.find?_cons_of_neg _ (by simp [hg, h]), List.find?_cons_of_neg _ (by simp [h])]
      exact ih

theorem itemsOf_ensureModality (st : TrackerSt α) (m m' : String) :
    itemsOf (ensureModality st m) m' = itemsOf st m' := by
  unfold ensureModality
  split
  · rfl
  · rename_i hmiss
    unfold itemsOf
    dsimp only
    rw [List.find?_append]
    cases hfind : st.itemsByModality.find? (fun p => p.1 == m') with
    | some p => rfl
    | none =>
      simp only [Option.or]
      cases hm : (m == m') with
      | true =>
        rw [List.find?_cons_of_pos _ (by simpa using hm)]
        rfl
      | false =>
        rw [List.find?_cons_of_neg _ (by simp [hm])]
        rfl

theorem cfg_ensureModality (st : TrackerSt α) (m : String) :
    (ensureModality st m).cfg = st.cfg := by
  unfold ensureModality
  split <;> rfl

theorem hasModality_ensureModality_self (st : TrackerSt α) (m : String) :
    hasModality (ensureModality st m) m = true := by
  unfold ensureModality
  split
  · assumption
  · rename_i hmiss
    unfold hasModality at hmiss ⊢
    dsimp only
    rw [List.find?_append]
    rw [Option.not_isSome_iff_eq_none] at hmiss
    rw [hmiss]
    simp [Option.or, List.find?_cons_of_pos]

theorem itemsOf_appendItemTo_self (st : TrackerSt α) (m : String) (item : α)
    (h : hasModality st m = true) :
    itemsOf (appendItemTo st m item) m = itemsOf st m ++ [item] := by
  unfold hasModality at h
  unfold itemsOf appendItemTo
  dsimp only
  have hg : ∀ b : String × List α,
      ((if (b.1 == m) = true then (b.1, b.2 ++ [item]) else b).1 == m) = (b.1 == m) := by
    intro b
    split <;> rfl
  rw [find?_map_of_pred (fun p => if p.1 == m then (p.1, p.2 ++ [item]) else p)
    (fun p => p.1 == m) (fun p => p.1 == m) hg]
  cases hfind : st.itemsByModality.find? (fun p => p.1 == m) with
  | none => rw [hfind] at h; exact absurd h (by simp)
  | some p =>
    have hp := List.find?_some hfind
    have hpm : p.1 = m := by simpa using hp
    simp [hpm]

set_option maxHeartbeats 1600000 in
/-- The catalog lookup can only fail with the unknown-model or
unknown-modality `TypeError`, never with a limit failure. -/
theorem placeholderStr_no_limit_error (cfg : TrackerCfg) (modality : String)
    (c : Nat) (m : String) (lim : Nat) :
    placeholderStr cfg modality c ≠ .error (.limitExceeded m lim) := by
  intro hcontra
  unfold placeholderStr at hcontra
  split at hcontra
  · exact absurd (firstMatch_error hcontra) (by simp)
  · split at hcontra
    · exact absurd (firstMatch_error hcontra) (by simp)
    · split at hcontra
      · exact absurd (firstMatch_error hcontra) (by simp)
      · exact absurd hcontra (by simp)

/-- C2: `add(modality, item)` with `k` items already recorded and limit `L`
(`limit_per_prompt.get(modality, 1)`): every call with `k < L` succeeds,
appending the item and returning the catalog placeholder for the 1-based
occurrence count `k + 1`; the call with `k = L` (call number `L + 1` in a
sequence of adds, and never an earlier one) fails with the limit error.
The registration hypothesis keeps the catalog lookup from failing first. -/
theorem trackerAdd_respects_limit {α : Type} (st : TrackerSt α) (modality : String) (item : α)
    (hreg : ∀ c, ∃ o, placeholderStr st.cfg modality c = .ok o) :
    ((itemsOf st modality).length < allowedCount st.cfg modality →
      ∃ o, trackerAdd st modality item
          = (appendItemTo (ensureModality st modality) modality item, .ok o) ∧
        placeholderStr st.cfg modality ((itemsOf st modality).length + 1) = .ok o ∧
        itemsOf (trackerAdd st modality item).1 modality = itemsOf st modality ++ [item]) ∧
    (allowedCount st.cfg modality ≤ (itemsOf st modality).length →
      trackerAdd st modality item
        = (ensureModality st modality,
           .error (.limitExceeded modality (allowedCount st.cfg modality)))) := by
  have hens := itemsOf_ensureModality st modality modality
  constructor
  · intro hk
    obtain ⟨o, ho⟩ := hreg ((itemsOf st modality).length + 1)
    have heq : trackerAdd st modality item
        = (appendItemTo (ensureModality st modality) modality item, .ok o) := by
      unfold trackerAdd
      dsimp only
      rw [hens, if_neg (by omega), ho]
    refine ⟨o, heq, ho, ?_⟩
    rw [heq]
    dsimp only
    rw [itemsOf_appendItemTo_self _ _ _ (hasModality_ensureModality_self st modality), hens]
  · intro hk
    unfold trackerAdd
    dsimp only
    rw [hens, if_pos (by omega)]

/-- C2 witness: a qwen tracker with limit `{image: 2}` and no items; the
first add succeeds with the occurrence-1 placeholder. -/
def qwenStEx : TrackerSt Nat := ⟨⟨"qwen", "", "", [("image", 2)]⟩, []⟩

theorem trackerAdd_respects_limit_witness :
    ∃ o, trackerAdd qwenStEx "image" 7
        = (appendItemTo (ensureModality qwenStEx "image") "image" 7, .ok o) ∧
      placeholderStr qwenStEx.cfg "image" ((itemsOf qwenStEx "image").length + 1) = .ok o ∧
      itemsOf (trackerAdd qwenStEx "image" 7).1 "image" = itemsOf qwenStEx "image" ++ [7] :=
  (trackerAdd_respects_limit qwenStEx "image" 7
    (fun c => ⟨some ("Picture " ++ toString c ++ ": <img></img>"), rfl⟩)).1 (by decide)

/-- C10 (amended): a LimitExceeded failure appends no item and produces no
placeholder — every modality's item list is unchanged and the configuration
is unchanged — but the failed `defaultdict` read may have inserted an empty
item list for the modality (this happens exactly when the modality had no
entry yet, i.e. its limit is 0), which a later finalize reports as an empty
list. -/
theorem trackerAdd_failure_frame {α : Type} (st : TrackerSt α) (modality : String) (item : α)
    (st' : TrackerSt α) (m : String) (lim : Nat)
    (h : trackerAdd st modality item = (st', .error (.limitExceeded m lim))) :
    st' = ensureModality st modality ∧
    st'.cfg = st.cfg ∧
    (∀ m', itemsOf st' m' = itemsOf st m') ∧
    m = modality ∧ lim = allowedCount st.cfg modality := by
  unfold trackerAdd at h
  dsimp only at h
  split at h
  · have h1 : ensureModality st modality = st' := congrArg Prod.fst h
    have h2 : (Except.error (PyErr.limitExceeded modality (allowedCount st.cfg modality))
        : Except PyErr (Option String)) = .error (.limitExceeded m lim) :=
      congrArg Prod.snd h
    injection h2 with h2
    injection h2 with h2a h2b
    subst h1
    exact ⟨rfl, cfg_ensureModality st modality, fun m' => itemsOf_ensureModality st modality m',
      h2a.symm, h2b.symm⟩
  · have h2 : placeholderStr st.cfg modality ((itemsOf (ensureModality st modality) modality).length + 1)
        = .error (.limitExceeded m lim) := congrArg Prod.snd h
    exact absurd h2 (placeholderStr_no_limit_error _ _ _ _ _)

/-- The tracker of a request whose image limit is configured to 0. -/
def zeroLimitSt : TrackerSt Nat := ⟨⟨"qwen", "", "", [("image", 0)]⟩, []⟩

/-- C10 counterexample: with limit `{image: 0}`, the failing
`add("image", 7)` raises LimitExceeded yet changes the tracker state — the
`defaultdict` read inserted an empty `"image"` entry — and the change is
observable: finalize now returns a mapping with an empty image list instead
of `None`. -/
theorem trackerAdd_failure_state_change_cex :
    (trackerAdd zeroLimitSt "image" 7).2 = .error (.limitExceeded "image" 0) ∧
    (trackerAdd zeroLimitSt "image" 7).1 ≠ zeroLimitSt ∧
    allMmData (trackerAdd zeroLimitSt "image" 7).1 = .ok (some [("image", .many [])]) ∧
    allMmData zeroLimitSt = .ok none ∧
    (some [("image", MMVal.many ([] : List Nat))] : Option (List (String × MMVal Nat))) ≠ none := by
  refine ⟨rfl, by decide, rfl, rfl, by simp⟩

/-- C10 witness: the frame conditions of the amended claim at the concrete
failing input. -/
theorem trackerAdd_failure_frame_witness :
    (⟨⟨"qwen", "", "", [("image", 0)]⟩, [("image", [])]⟩ : TrackerSt Nat)
        = ensureModality zeroLimitSt "image" ∧
    (⟨⟨"qwen", "", "", [("image", 0)]⟩, [("image", [])]⟩ : TrackerSt Nat).cfg = zeroLimitSt.cfg ∧
    (∀ m', itemsOf (⟨⟨"qwen", "", "", [("image", 0)]⟩, [("image", [])]⟩ : TrackerSt Nat) m'
        = itemsOf zeroLimitSt m') ∧
    "image" = "image" ∧ 0 = allowedCount zeroLimitSt.cfg "image" :=
  trackerAdd_failure_frame zeroLimitSt "image" 7 _ "image" 0 rfl

/-! ## Claim C3: finalize mutual exclusion -/

/-- The two finalize failures the spec groups as MixedModality. -/
def isMixedModalityErr : PyErr → Bool
  | .mixedModality => true
  | .multipleImageEmbeds => true
  | _ => false

theorem itemsOf_of_hasModality_false {α : Type} {st : TrackerSt α} {m : String}
    (h : hasModality st m = false) : itemsOf st m = [] := by
  unfold hasModality at h
  unfold itemsOf
  cases hfind : st.itemsByModality.find? (fun p => p.1 == m) with
  | none => rfl
  | some p => rw [hfind] at h; exact absurd h (by simp)

theorem itemsOf_ne_nil_of_hasModality {α : Type} {st : TrackerSt α} {m : String}
    (wf : ∀ p ∈ st.itemsByModality, p.2 ≠ []) (h : hasModality st m = true) :
    itemsOf st m ≠ [] := by
  unfold hasModality at h
  unfold itemsOf
  cases hfind : st.itemsByModality.find? (fun p => p.1 == m) with
  | none => rw [hfind] at h; exact absurd h (by simp)
  | some p =>
    simp only [Option.map_some', Option.getD_some]
    exact wf p (List.mem_of_find?_eq_some hfind)

/-- The characterization of the sync finalize: one of the two
mutual-exclusion errors exactly when raw images and embeddings coexist or
more than one embeddings item was recorded; a mapping otherwise.  `wf`
states that every recorded modality has at least one item, which holds for
every state finalize can see in the program (a failed add aborts the
request). -/
theorem allMmData_char {α : Type} (st : TrackerSt α)
    (wf : ∀ p ∈ st.itemsByModality, p.2 ≠ []) :
    (((hasModality st "image" = true ∧ hasModality st "image_embeds" = true) ∨
        1 < (itemsOf st "image_embeds").length) ↔
      (∃ e, allMmData st = .error e ∧ isMixedModalityErr e = true)) ∧
    (¬ ((hasModality st "image" = true ∧ hasModality st "image_embeds" = true) ∨
        1 < (itemsOf st "image_embeds").length) →
      ∃ mm, allMmData st = .ok mm) := by
  by_cases hemp : st.itemsByModality.isEmpty = true
  · have hnil : st.itemsByModality = [] := List.isEmpty_iff.mp hemp
    have himg : hasModality st "image" = false := by
      unfold hasModality
      rw [hnil]
      rfl
    have hlen : itemsOf st "image_embeds" = [] := by
      unfold itemsOf
      rw [hnil]
      rfl
    have hres : allMmData st = .ok none := by
      unfold allMmData
      rw [if_pos hemp]
    refine ⟨⟨?_, ?_⟩, fun _ => ⟨none, hres⟩⟩
    · rintro (⟨h1, -⟩ | h2)
      · rw [himg] at h1
        exact absurd h1 (by simp)
      · rw [hlen] at h2
        exact absurd h2 (by simp)
    · rintro ⟨e, he, -⟩
      rw [hres] at he
      exact absurd he (by simp)
  · by_cases hmix : (hasModality st "image" && hasModality st "image_embeds") = true
    · have hres : allMmData st = .error .mixedModality := by
        unfold allMmData
        rw [if_neg hemp, if_pos hmix]
      obtain ⟨h1, h2⟩ := Bool.and_eq_true_iff.mp hmix
      refine ⟨⟨fun _ => ⟨.mixedModality, hres, rfl⟩, fun _ => Or.inl ⟨h1, h2⟩⟩, ?_⟩
      intro hbad
      exact absurd (Or.inl ⟨h1, h2⟩) hbad
    · have hnotboth : ¬ (hasModality st "image" = true ∧ hasModality st "image_embeds" = true) := by
        intro ⟨h1, h2⟩
        exact hmix (by rw [h1, h2]; rfl)
      by_cases hemb : hasModality st "image_embeds" = true
      · have hne := itemsOf_ne_nil_of_hasModality wf hemb
        by_cases hlen : 1 < (itemsOf st "image_embeds").length
        · have hres : allMmData st = .error .multipleImageEmbeds := by
            unfold allMmData
            rw [if_neg hemp, if_neg hmix]
            dsimp only
            rw [if_pos hemb, if_pos hlen]
            rfl
          refine ⟨⟨fun _ => ⟨.multipleImageEmbeds, hres, rfl⟩, fun _ => Or.inr hlen⟩, ?_⟩
          intro hbad
          exact absurd (Or.inr hlen) hbad
        · cases hl : itemsOf st "image_embeds" with
          | nil => exact absurd hl hne
          | cons x xs =>
            have hres : ∃ mm, allMmData st = .ok mm := by
              unfold allMmData
              rw [if_neg hemp, if_neg hmix]
              dsimp only
              rw [if_pos hemb, if_neg hlen, hl]
              exact ⟨_, rfl⟩
            obtain ⟨mm, hmm⟩ := hres
            refine ⟨⟨?_, ?_⟩, fun _ => ⟨mm, hmm⟩⟩
            · rintro (hboth | h2)
              · exact absurd hboth hnotboth
              · rw [hl] at hlen
                exact absurd h2 hlen
            · rintro ⟨e, he, -⟩
              rw [hmm] at he
              exact absurd he (by simp)
      · have hlen0 : itemsOf st "image_embeds" = [] :=
          itemsOf_of_hasModality_false (by simpa using hemb)
        have hres : ∃ mm, allMmData st = .ok mm := by
          unfold allMmData
          rw [if_neg hemp, if_neg hmix]
          dsimp only
          rw [if_neg hemb]
          exact ⟨_, rfl⟩
        obtain ⟨mm, hmm⟩ := hres
        refine ⟨⟨?_, ?_⟩, fun _ => ⟨mm, hmm⟩⟩
        · rintro (hboth | h2)
          · exact absurd hboth hnotboth
          · rw [hlen0] at h2
            exact absurd h2 (by simp)
        · rintro ⟨e, he, -⟩
          rw [hmm] at he
          exact absurd he (by simp)

theorem hasModality_resolveTracker {α β : Type} (resolve : α → β) (st : TrackerSt α)
    (m : String) : hasModality (resolveTracker resolve st) m = hasModality st m := by
  unfold hasModality resolveTracker
  dsimp only
  have h := find?_map_of_pred (fun p : String × List α => (p.1, p.2.map resolve))
    (fun p => p.1 == m) (fun p => p.1 == m) (fun b => rfl) st.itemsByModality
  rw [h]
  cases st.itemsByModality.find? (fun p => p.1 == m) <;> rfl

theorem itemsOf_resolveTracker {α β : Type} (resolve : α → β) (st : TrackerSt α)
    (m : String) : itemsOf (resolveTracker resolve st) m = (itemsOf st m).map resolve := by
  unfold itemsOf resolveTracker
  dsimp only
  have h := find?_map_of_pred (fun p : String × List α => (p.1, p.2.map resolve))
    (fun p => p.1 == m) (fun p => p.1 == m) (fun b => rfl) st.itemsByModality
  rw [h]
  cases st.itemsByModality.find? (fun p => p.1 == m) <;> rfl

/-- C3: in both the sync and the concurrent variant, finalize fails with a
MixedModality error exactly when both a raw image and an image-embeddings
item were recorded, or more than one image-embeddings item was recorded;
otherwise it returns the modality-to-items mapping.  Recorded modalities
have nonempty item lists (a failed add aborts the request before finalize). -/
theorem allMmData_mixed_exclusion :
    (∀ (α : Type) (st : TrackerSt α),
      (∀ p ∈ st.itemsByModality, p.2 ≠ []) →
      ((((hasModality st "image" = true ∧ hasModality st "image_embeds" = true) ∨
          1 < (itemsOf st "image_embeds").length) ↔
        (∃ e, allMmData st = .error e ∧ isMixedModalityErr e = true)) ∧
      (¬ ((hasModality st "image" = true ∧ hasModality st "image_embeds" = true) ∨
          1 < (itemsOf st "image_embeds").length) →
        ∃ mm, allMmData st = .ok mm))) ∧
    (∀ (α β : Type) (resolve : α → β) (st : TrackerSt α),
      (∀ p ∈ st.itemsByModality, p.2 ≠ []) →
      ((((hasModality st "image" = true ∧ hasModality st "image_embeds" = true) ∨
          1 < (itemsOf st "image_embeds").length) ↔
        (∃ e, allMmDataAsync resolve st = .error e ∧ isMixedModalityErr e = true)) ∧
      (¬ ((hasModality st "image" = true ∧ hasModality st "image_embeds" = true) ∨
          1 < (itemsOf st "image_embeds").length) →
        ∃ mm, allMmDataAsync resolve st = .ok mm))) := by
  constructor
  · exact fun α st wf => allMmData_char st wf
  · intro α β resolve st wf
    have wf' : ∀ p ∈ (resolveTracker resolve st).itemsByModality, p.2 ≠ [] := by
      intro p hp
      unfold resolveTracker at hp
      obtain ⟨q, hq, rfl⟩ := List.mem_map.mp hp
      dsimp only
      intro hnil
      exact wf q hq (List.map_eq_nil_iff.mp hnil)
    have h := allMmData_char (resolveTracker resolve st) wf'
    rw [hasModality_resolveTracker, hasModality_resolveTracker,
      itemsOf_resolveTracker] at h
    rw [List.length_map] at h
    exact h

/-! ## Claim C4: the flat-format placeholder back-fill -/

theorem buildMissing_ok {text : String} {counts : List (String × Nat)}
    (h : ∀ p ∈ counts, countOcc text p.1 ≤ p.2) :
    buildMissing text counts
      = .ok ((counts.map (fun p => List.replicate (p.2 - countOcc text p.1) p.1)).flatten) := by
  induction counts with
  | nil => rfl
  | cons hd tl ih =>
    obtain ⟨ph, c⟩ := hd
    have hhd : countOcc text ph ≤ c := h (ph, c) (List.mem_cons_self _ _)
    unfold buildMissing
    rw [if_neg (by omega), ih (fun p hp => h p (List.mem_cons_of_mem _ hp))]
    rfl

theorem buildMissing_error_iff {text : String} {counts : List (String × Nat)} :
    (∃ p ∈ counts, p.2 < countOcc text p.1) ↔ ∃ e, buildMissing text counts = .error e := by
  induction counts with
  | nil =>
    constructor
    · rintro ⟨p, hp, -⟩
      exact absurd hp (List.not_mem_nil p)
    · rintro ⟨e, he⟩
      exact absurd he (by simp [buildMissing])
  | cons hd tl ih =>
    obtain ⟨ph, c⟩ := hd
    constructor
    · rintro ⟨p, hp, hlt⟩
      rcases List.mem_cons.mp hp with rfl | hptl
      · exact ⟨.placeholderAccounting ph, by unfold buildMissing; rw [if_pos hlt]⟩
      · unfold buildMissing
        split
        · exact ⟨_, rfl⟩
        · obtain ⟨e, he⟩ := ih.mp ⟨p, hptl, hlt⟩
          rw [he]
          exact ⟨e, rfl⟩
    · rintro ⟨e, he⟩
      unfold buildMissing at he
      split at he
      · exact ⟨(ph, c), List.mem_cons_self _ _, by assumption⟩
      · cases htl : buildMissing text tl with
        | error e2 =>
          obtain ⟨p, hp, hlt⟩ := ih.mpr ⟨e2, htl⟩
          exact ⟨p, List.mem_cons_of_mem _ hp, hlt⟩
        | ok m =>
          rw [htl] at he
          exact absurd he (by simp [Except.map])

/-- C4: the flat-format back-fill subtracts, per placeholder string, its
verbatim occurrences in the body; any negative remainder fails with the
placeholder-accounting error, and otherwise the missing copies are joined
one per line, in first-encountered order, as a block preceding the body.
In particular, with counts `{<image>: 2}` and the body `"Describe these."`
(zero occurrences) the image placeholder appears twice, each on its own
line, before the body. -/
theorem getFullMultimodalTextPrompt_spec :
    (∀ (counts : List (String × Nat)) (text : String),
      ((∃ p ∈ counts, p.2 < countOcc text p.1) ↔
        ∃ e, getFullMultimodalTextPrompt counts text = .error e) ∧
      ((∀ p ∈ counts, countOcc text p.1 ≤ p.2) →
        getFullMultimodalTextPrompt counts text
          = .ok (String.intercalate "\n"
              ((counts.map (fun p => List.replicate (p.2 - countOcc text p.1) p.1)).flatten
                ++ [text])))) ∧
    getFullMultimodalTextPrompt [("<image>", 2)] "Describe these."
      = .ok "<image>\n<image>\nDescribe these." := by
  refine ⟨fun counts text => ⟨?_, ?_⟩, rfl⟩
  · rw [buildMissing_error_iff]
    unfold getFullMultimodalTextPrompt
    constructor
    · rintro ⟨e, he⟩
      rw [he]
      exact ⟨e, rfl⟩
    · rintro ⟨e, he⟩
      cases hb : buildMissing text counts with
      | error e2 => exact ⟨e2, rfl⟩
      | ok m =>
        rw [hb] at he
        exact absurd he (by simp [Except.map])
  · intro h
    unfold getFullMultimodalTextPrompt
    rw [buildMissing_ok h]
    rfl

/-! ## Claims C5 and C9: empty-content parts are dropped -/

theorem parsePart_skips_falsy {fields : List (String × PVal)} {t : String} {c : PVal}
    (hparse : parseMmPart fields = .ok (t, c))
    (hvalid : validMmPartTypes.contains t = true)
    (hfalsy : pyTruthy c = false)
    (wrapDicts : Bool) (ps : ParserSt) :
    parsePart (.idict fields) wrapDicts ps = .ok (none, ps) := by
  unfold parsePart
  dsimp only
  rw [hparse]
  simp only [Except.bind, hvalid, hfalsy]
  rfl

theorem parsePartsLoop_skip {p : InPart} {wrapDicts : Bool} {ps : ParserSt}
    (h : parsePart p wrapDicts ps = .ok (none, ps)) (rest : List InPart) :
    parsePartsLoop ps wrapDicts (p :: rest) = parsePartsLoop ps wrapDicts rest := by
  have hstep : parsePartsLoop ps wrapDicts (p :: rest)
      = (parsePart p wrapDicts ps).bind (fun rps =>
          (parsePartsLoop rps.2 wrapDicts rest).map (fun rs =>
            match rps.1 with
            | some pp => if parsedPartTruthy pp then (pp :: rs.1, rs.2) else rs
            | none => rs)) := rfl
  rw [hstep, h]
  simp only [Except.bind]
  cases hres : parsePartsLoop ps wrapDicts rest <;> rfl

/-- C5: a media content part (image_url, image_embeds, audio_url,
input_audio or video_url) whose extracted locator is empty is dropped: part
parsing returns nothing, leaves the tracker and placeholder counts
untouched, and parsing of the remaining parts proceeds as if the part were
absent.  (Only a warning is logged; the request does not fail.) -/
theorem emptyMediaPart_dropped (fields : List (String × PVal)) (t : String) (c : PVal)
    (wrapDicts : Bool) (ps : ParserSt) (rest : List InPart)
    (hparse : parseMmPart fields = .ok (t, c))
    (hmedia : t = "image_url" ∨ t = "image_embeds" ∨ t = "audio_url"
      ∨ t = "input_audio" ∨ t = "video_url")
    (hfalsy : pyTruthy c = false) :
    parsePart (.idict fields) wrapDicts ps = .ok (none, ps) ∧
    parsePartsLoop ps wrapDicts (.idict fields :: rest) = parsePartsLoop ps wrapDicts rest := by
  have hvalid : validMmPartTypes.contains t = true := by
    rcases hmedia with rfl | rfl | rfl | rfl | rfl <;> rfl
  have h1 := parsePart_skips_falsy hparse hvalid hfalsy wrapDicts ps
  exact ⟨h1, parsePartsLoop_skip h1 rest⟩

/-- C5 witness: an `image_url` part whose url is the empty string, followed
by one remaining text part. -/
def emptyImageUrlFields : List (String × PVal) :=
  [("type", .pstr "image_url"), ("image_url", .pdict [("url", .pstr "")])]

def psWitness : ParserSt := ⟨⟨⟨"qwen", "", "", []⟩, []⟩, []⟩

theorem emptyMediaPart_dropped_witness :
    parsePart (.idict emptyImageUrlFields) true psWitness = .ok (none, psWitness) ∧
    parsePartsLoop psWitness true (.idict emptyImageUrlFields :: [.istr "hello"])
      = parsePartsLoop psWitness true [.istr "hello"] :=
  emptyMediaPart_dropped emptyImageUrlFields "image_url" (.pstr "") true psWitness
    [.istr "hello"] rfl (Or.inl rfl) rfl

/-- C9: a `text` or `refusal` part whose string payload is empty is dropped
by the same empty-content check as an empty media part: part parsing
returns nothing under both the Flat and the Structured target format, and
the message state is unchanged. -/
theorem emptyTextPart_dropped (fields : List (String × PVal)) (t : String)
    (wrapDicts : Bool) (ps : ParserSt) (rest : List InPart)
    (hparse : parseMmPart fields = .ok (t, .pstr ""))
    (htext : t = "text" ∨ t = "refusal") :
    parsePart (.idict fields) wrapDicts ps = .ok (none, ps) ∧
    parsePartsLoop ps wrapDicts (.idict fields :: rest) = parsePartsLoop ps wrapDicts rest := by
  have hvalid : validMmPartTypes.contains t = true := by
    rcases htext with rfl | rfl <;> rfl
  have h1 := parsePart_skips_falsy hparse hvalid rfl wrapDicts ps
  exact ⟨h1, parsePartsLoop_skip h1 rest⟩

/-- C9 witness: an empty `text` part checked under both target formats. -/
theorem emptyTextPart_dropped_witness :
    (parsePart (.idict [("type", .pstr "text"), ("text", .pstr "")]) false psWitness
        = .ok (none, psWitness) ∧
      parsePartsLoop psWitness false
          (.idict [("type", .pstr "text"), ("text", .pstr "")] :: [.istr "hello"])
        = parsePartsLoop psWitness false [.istr "hello"]) ∧
    parsePart (.idict [("type", .pstr "text"), ("text", .pstr "")]) true psWitness
      = .ok (none, psWitness) :=
  ⟨emptyTextPart_dropped [("type", .pstr "text"), ("text", .pstr "")] "text" false psWitness
      [.istr "hello"] rfl (Or.inl rfl),
    (emptyTextPart_dropped [("type", .pstr "text"), ("text", .pstr "")] "text" true psWitness
      [.istr "hello"] rfl (Or.inl rfl)).1⟩

/-! ## Claim C6: missing and invalid type tags -/

/-- C6 (amended): a part with no type tag (absent or `None`) and none of the
legacy bare fields fails with the missing-type SchemaViolation; a present
tag that is not a string fails with the invalid-type SchemaViolation; but a
present string tag outside the recognized set does not raise the
invalid-type error — it flows through the tag parser and part parsing fails
with the distinct unknown-part-type error (`NotImplementedError`). -/
theorem partTypeTag_errors :
    (∀ fields : List (String × PVal),
      (dictGet? fields "type" = none ∨ dictGet? fields "type" = some .pnone) →
      getNonNone fields "image_url" = none →
      getNonNone fields "audio_url" = none →
      getNonNone fields "input_audio" = none →
      getNonNone fields "video_url" = none →
      parseMmPart fields = .error .missingTypeField) ∧
    (∀ (fields : List (String × PVal)) (v : PVal),
      dictGet? fields "type" = some v →
      (∀ s, v ≠ .pstr s) → v ≠ .pnone →
      parseMmPart fields = .error .invalidTypeField) ∧
    (∀ (fields : List (String × PVal)) (t : String) (wrapDicts : Bool) (ps : ParserSt),
      dictGet? fields "type" = some (.pstr t) →
      mmParserKeys.contains t = false →
      parsePart (.idict fields) wrapDicts ps = .error (.unknownPartType t)) := by
  refine ⟨?_, ?_, ?_⟩
  · intro fields htype himg haud hinp hvid
    unfold parseMmPart
    rcases htype with htype | htype <;>
      rw [htype] <;> rw [himg, haud, hinp, hvid]
  · intro fields v htype hnstr hnnone
    unfold parseMmPart
    rw [htype]
    cases v with
    | pstr s => exact absurd rfl (hnstr s)
    | pnone => exact absurd rfl hnnone
    | pint n => rfl
    | pbool b => rfl
    | pdict fs => rfl
  · intro fields t wrapDicts ps htype hkeys
    have hmm : parseMmPart fields = .ok (t, .pstr "unknown part_type content") := by
      unfold parseMmPart
      rw [htype]
      dsimp only
      rw [hkeys]
      rfl
    have hne : ∀ s ∈ mmParserKeys, t ≠ s := by
      intro s hs heq
      subst heq
      rw [List.contains_eq_any_beq] at hkeys
      have hany : mmParserKeys.any (t == ·) = true := List.any_eq_true.mpr ⟨t, hs, by simp⟩
      rw [hany] at hkeys
      exact absurd hkeys (by simp)
    have e1 : (t == "text") = false := by simpa using hne "text" (by simp [mmParserKeys])
    have e2 : (t == "refusal") = false := by simpa using hne "refusal" (by simp [mmParserKeys])
    have e3 : (t == "image_url") = false := by simpa using hne "image_url" (by simp [mmParserKeys])
    have e4 : (t == "image_embeds") = false := by
      simpa using hne "image_embeds" (by simp [mmParserKeys])
    have e5 : (t == "audio_url") = false := by simpa using hne "audio_url" (by simp [mmParserKeys])
    have e6 : (t == "input_audio") = false := by
      simpa using hne "input_audio" (by simp [mmParserKeys])
    have e7 : (t == "video_url") = false := by simpa using hne "video_url" (by simp [mmParserKeys])
    have hnotvalid : validMmPartTypes.contains t = false := by
      rw [List.contains_eq_any_beq]
      simp [validMmPartTypes, e1, e2, e3, e4, e5, e6, e7]
    unfold parsePart
    dsimp only
    rw [hmm]
    simp only [Except.bind, hnotvalid, Bool.false_and, e1, e2, e3, e4, e5, e6, e7]
    rfl

/-- C6 counterexample: the part `{type: "bogus", text: "x"}` carries a
present tag that is not a recognized string; the claim says parsing fails
with the invalid-type SchemaViolation (`ValueError`, "Invalid type field"),
but the code raises the distinct unknown-part-type `NotImplementedError`
from the part parser instead (the tag parser itself succeeds). -/
theorem partTypeTag_unknown_string_cex :
    parseMmPart [("type", .pstr "bogus"), ("text", .pstr "x")]
      = .ok ("bogus", .pstr "unknown part_type content") ∧
    parsePart (.idict [("type", .pstr "bogus"), ("text", .pstr "x")]) false psWitness
      = .error (.unknownPartType "bogus") ∧
    PyErr.unknownPartType "bogus" ≠ PyErr.invalidTypeField := by
  refine ⟨rfl, rfl, by decide⟩

/-! ## Claim C7: the tool-call argument decoding pass -/

theorem postprocessToolCall_spec {decode : PVal → Except PyErr PVal} {tc tc2 : ToolCall}
    (h : postprocessToolCall decode tc = .ok tc2) :
    tc2.tid = tc.tid ∧ tc2.tfunction.fname = tc.tfunction.fname ∧
    decode tc.tfunction.farguments = .ok tc2.tfunction.farguments := by
  unfold postprocessToolCall at h
  cases hd : decode tc.tfunction.farguments with
  | error e => rw [hd] at h; exact absurd h (by simp [Except.map])
  | ok v =>
    rw [hd] at h
    injection h with h
    subst h
    exact ⟨rfl, rfl, rfl⟩

theorem postprocessToolCalls_forall2 {decode : PVal → Except PyErr PVal} :
    ∀ {tcs res : List ToolCall}, postprocessToolCalls decode tcs = .ok res →
      List.Forall₂ (fun tc tc2 => postprocessToolCall decode tc = .ok tc2) tcs res := by
  intro tcs
  induction tcs with
  | nil =>
    intro res h
    injection h with h
    subst h
    exact List.Forall₂.nil
  | cons tc rest ih =>
    intro res h
    unfold postprocessToolCalls at h
    cases h1 : postprocessToolCall decode tc with
    | error e => rw [h1] at h; exact absurd h (by simp [Except.bind])
    | ok tc2 =>
      rw [h1] at h
      simp only [Except.bind] at h
      cases h2 : postprocessToolCalls decode rest with
      | error e => rw [h2] at h; exact absurd h (by simp [Except.map])
      | ok l =>
        rw [h2] at h
        injection h with h
        subst h
        exact List.Forall₂.cons h1 (ih h2)

theorem postprocessMessage_spec {decode : PVal → Except PyErr PVal} {m r : ConvMessage}
    (h : postprocessMessage decode m = .ok r) :
    r.role = m.role ∧ r.content = m.content ∧ r.mname = m.mname ∧
    r.toolCallId = m.toolCallId ∧
    (m.role = "assistant" →
      (m.toolCalls = none → r.toolCalls = none) ∧
      (∀ tcs, m.toolCalls = some tcs → ∃ tcs2, r.toolCalls = some tcs2 ∧
        List.Forall₂ (fun tc tc2 => tc2.tid = tc.tid ∧
          tc2.tfunction.fname = tc.tfunction.fname ∧
          decode tc.tfunction.farguments = .ok tc2.tfunction.farguments) tcs tcs2)) ∧
    (m.role ≠ "assistant" → r = m) := by
  unfold postprocessMessage at h
  split at h
  · rename_i hrole
    have hrole' : m.role = "assistant" := by simpa using hrole
    cases htc : m.toolCalls with
    | none =>
      rw [htc] at h
      injection h with h
      subst h
      refine ⟨rfl, rfl, rfl, rfl, fun _ => ⟨fun _ => htc, ?_⟩, fun hne => absurd hrole' hne⟩
      intro tcs htcs
      exact absurd htcs (by simp)
    | some tcs =>
      rw [htc] at h
      dsimp only at h
      cases h2 : postprocessToolCalls decode tcs with
      | error e => rw [h2] at h; exact absurd h (by simp [Except.map])
      | ok tcs2 =>
        rw [h2] at h
        injection h with h
        subst h
        refine ⟨rfl, rfl, rfl, rfl, fun _ => ⟨?_, ?_⟩, fun hne => absurd hrole' hne⟩
        · intro hnone
          exact absurd hnone (by simp)
        · intro tcs' htcs'
          injection htcs' with htcs'
          subst htcs'
          refine ⟨tcs2, rfl, ?_⟩
          exact (postprocessToolCalls_forall2 h2).imp (fun _ _ h1 => postprocessToolCall_spec h1)
  · rename_i hrole
    injection h with h
    subst h
    refine ⟨rfl, rfl, rfl, rfl, fun hrole' => absurd hrole' (by simpa using hrole), fun _ => rfl⟩

theorem postprocessMessages_forall2 {decode : PVal → Except PyErr PVal} :
    ∀ {msgs res : List ConvMessage}, postprocessMessages decode msgs = .ok res →
      List.Forall₂ (fun m r => postprocessMessage decode m = .ok r) msgs res := by
  intro msgs
  induction msgs with
  | nil =>
    intro res h
    injection h with h
    subst h
    exact List.Forall₂.nil
  | cons m rest ih =>
    intro res h
    unfold postprocessMessages at h
    cases h1 : postprocessMessage decode m with
    | error e => rw [h1] at h; exact absurd h (by simp [Except.bind])
    | ok r =>
      rw [h1] at h
      simp only [Except.bind] at h
      cases h2 : postprocessMessages decode rest with
      | error e => rw [h2] at h; exact absurd h (by simp [Except.map])
      | ok l =>
        rw [h2] at h
        injection h with h
        subst h
        exact List.Forall₂.cons h1 (ih h2)

/-- The assistant message of the concrete C7 example, before and after the
pass; the wire payload is the json text of an object with field a = 1. -/
def wireArgsText : String := "\x7b\"a\": 1\x7d"

def assistantMsgWire : ConvMessage :=
  { role := "assistant", content := .cstr "",
    toolCalls := some [⟨"call1", ⟨"f", .pstr wireArgsText⟩⟩] }

def assistantMsgDecoded : ConvMessage :=
  { role := "assistant", content := .cstr "",
    toolCalls := some [⟨"call1", ⟨"f", .pdict [("a", .pint 1)]⟩⟩] }

/-- C7: after the post-process pass, every assistant-role message carrying
tool calls has each call's textual arguments payload replaced, in place, by
its decoded structured value (the host `json.loads` is the parameter
`decode`); every other field and every non-assistant message is unchanged.
In particular a decode sending the encoded text of the object a = 1 to its
structured value transforms the example assistant message accordingly. -/
theorem postprocessMessages_decodes_args :
    (∀ (decode : PVal → Except PyErr PVal) (msgs res : List ConvMessage),
      postprocessMessages decode msgs = .ok res →
      List.Forall₂ (fun m r =>
        r.role = m.role ∧ r.content = m.content ∧ r.mname = m.mname ∧
        r.toolCallId = m.toolCallId ∧
        (m.role = "assistant" →
          (m.toolCalls = none → r.toolCalls = none) ∧
          (∀ tcs, m.toolCalls = some tcs → ∃ tcs2, r.toolCalls = some tcs2 ∧
            List.Forall₂ (fun tc tc2 => tc2.tid = tc.tid ∧
              tc2.tfunction.fname = tc.tfunction.fname ∧
              decode tc.tfunction.farguments = .ok tc2.tfunction.farguments) tcs tcs2)) ∧
        (m.role ≠ "assistant" → r = m)) msgs res) ∧
    (∀ decode : PVal → Except PyErr PVal,
      decode (.pstr wireArgsText) = .ok (.pdict [("a", .pint 1)]) →
      postprocessMessages decode [assistantMsgWire] = .ok [assistantMsgDecoded]) := by
  constructor
  · intro decode msgs res h
    exact (postprocessMessages_forall2 h).imp (fun _ _ h1 => postprocessMessage_spec h1)
  · intro decode hdec
    unfold postprocessMessages postprocessMessage assistantMsgWire
    dsimp only
    unfold postprocessToolCalls postprocessToolCall
    dsimp only
    rw [hdec]
    rfl

end VllmChat
